import Mathlib

/-!
Verification of the fixture reconciliation pipeline of the RugbyNow
repository (scripts `sync-flashscore.ts`, `scrape-standings.mjs`, the
earlier sync iterations, and the standings aggregator of
`LeagueClient.tsx`).

JavaScript strings are modelled as `List Char` of Unicode scalar values.
The string primitives used by the scripts (`toLowerCase`, `toUpperCase`,
`normalize("NFKD")`, `trim`, regular expressions) are modelled
character-wise by explicit tables that are faithful to the Unicode data
for the ASCII and Latin-1 ranges the pipeline operates on, and are the
identity elsewhere; canonical reordering of combining marks is not
modelled.
-/

namespace RugbyNow

/-- JavaScript strings as lists of Unicode scalar values. -/
abbrev Str := List Char

/-- The right single quotation mark U+2019, written `’` in the scripts. -/
def rsquo : Char := Char.ofNat 0x2019

/-- The ASCII apostrophe. -/
def apos : Char := Char.ofNat 39

/-- The characters matched by the JavaScript `\s` class (and removed by
`String.prototype.trim`). -/
def wsChars : List Char :=
  [Char.ofNat 32, Char.ofNat 9, Char.ofNat 10, Char.ofNat 11, Char.ofNat 12,
   Char.ofNat 13, Char.ofNat 0xA0, Char.ofNat 0x1680, Char.ofNat 0x2000,
   Char.ofNat 0x2001, Char.ofNat 0x2002, Char.ofNat 0x2003, Char.ofNat 0x2004,
   Char.ofNat 0x2005, Char.ofNat 0x2006, Char.ofNat 0x2007, Char.ofNat 0x2008,
   Char.ofNat 0x2009, Char.ofNat 0x200A, Char.ofNat 0x2028, Char.ofNat 0x2029,
   Char.ofNat 0x202F, Char.ofNat 0x205F, Char.ofNat 0x3000, Char.ofNat 0xFEFF]

/-- Test for the JavaScript `\s` class. -/
def isWsJs (c : Char) : Bool := wsChars.contains c

/-- First-match association-list lookup (the semantics of a lookup table
or of a JavaScript `Map` whose keys are distinct). -/
def lookupA {α β : Type} [DecidableEq α] (c : α) : List (α × β) → Option β
  | [] => none
  | (k, v) :: rest => if c = k then some v else lookupA c rest

/-- Case mapping table of `String.prototype.toLowerCase` on the ASCII and
Latin-1 letters (the ranges the pipeline's team names use). -/
def lowerTable : List (Char × Char) :=
  [('A', 'a'), ('B', 'b'), ('C', 'c'), ('D', 'd'), ('E', 'e'), ('F', 'f'),
   ('G', 'g'), ('H', 'h'), ('I', 'i'), ('J', 'j'), ('K', 'k'), ('L', 'l'),
   ('M', 'm'), ('N', 'n'), ('O', 'o'), ('P', 'p'), ('Q', 'q'), ('R', 'r'),
   ('S', 's'), ('T', 't'), ('U', 'u'), ('V', 'v'), ('W', 'w'), ('X', 'x'),
   ('Y', 'y'), ('Z', 'z'),
   ('À', 'à'), ('Á', 'á'), ('Â', 'â'), ('Ã', 'ã'), ('Ä', 'ä'), ('Å', 'å'),
   ('Æ', 'æ'), ('Ç', 'ç'), ('È', 'è'), ('É', 'é'), ('Ê', 'ê'), ('Ë', 'ë'),
   ('Ì', 'ì'), ('Í', 'í'), ('Î', 'î'), ('Ï', 'ï'), ('Ð', 'ð'), ('Ñ', 'ñ'),
   ('Ò', 'ò'), ('Ó', 'ó'), ('Ô', 'ô'), ('Õ', 'õ'), ('Ö', 'ö'), ('Ø', 'ø'),
   ('Ù', 'ù'), ('Ú', 'ú'), ('Û', 'û'), ('Ü', 'ü'), ('Ý', 'ý'), ('Þ', 'þ')]

/-- `String.prototype.toLowerCase`, character-wise. -/
def jsToLower (c : Char) : Char := (lookupA c lowerTable).getD c

/-- Case mapping table of `String.prototype.toUpperCase` on the same range. -/
def upperTable : List (Char × Char) := lowerTable.map (fun p => (p.2, p.1))

/-- `String.prototype.toUpperCase`, character-wise. -/
def jsToUpper (c : Char) : Char := (lookupA c upperTable).getD c

/-- NFKD decompositions of the precomposed Latin-1 lowercase letters
(uppercase letters never reach `normalize("NFKD")` in `norm`, which
lower-cases first). Letters without a decomposition (æ, ø, ð, þ) are
absent: the fallback is the identity. -/
def nfkdTable : List (Char × List Char) :=
  [('à', ['a', Char.ofNat 0x300]), ('á', ['a', Char.ofNat 0x301]),
   ('â', ['a', Char.ofNat 0x302]), ('ã', ['a', Char.ofNat 0x303]),
   ('ä', ['a', Char.ofNat 0x308]), ('å', ['a', Char.ofNat 0x30A]),
   ('ç', ['c', Char.ofNat 0x327]),
   ('è', ['e', Char.ofNat 0x300]), ('é', ['e', Char.ofNat 0x301]),
   ('ê', ['e', Char.ofNat 0x302]), ('ë', ['e', Char.ofNat 0x308]),
   ('ì', ['i', Char.ofNat 0x300]), ('í', ['i', Char.ofNat 0x301]),
   ('î', ['i', Char.ofNat 0x302]), ('ï', ['i', Char.ofNat 0x308]),
   ('ñ', ['n', Char.ofNat 0x303]),
   ('ò', ['o', Char.ofNat 0x300]), ('ó', ['o', Char.ofNat 0x301]),
   ('ô', ['o', Char.ofNat 0x302]), ('õ', ['o', Char.ofNat 0x303]),
   ('ö', ['o', Char.ofNat 0x308]),
   ('ù', ['u', Char.ofNat 0x300]), ('ú', ['u', Char.ofNat 0x301]),
   ('û', ['u', Char.ofNat 0x302]), ('ü', ['u', Char.ofNat 0x308]),
   ('ý', ['y', Char.ofNat 0x301]), ('ÿ', ['y', Char.ofNat 0x308])]

/-- `String.prototype.normalize("NFKD")`, character-wise. -/
def nfkd (c : Char) : List Char := (lookupA c nfkdTable).getD [c]

/-- Membership in the combining-mark block `[̀-ͯ]` removed by
`norm`. -/
def isMark (c : Char) : Bool := decide (0x300 ≤ c.toNat) && decide (c.toNat ≤ 0x36F)

/-- The global replacement `replace(/’/g, "'")`, character-wise. -/
def quoteRepl (c : Char) : Char := if c = rsquo then apos else c

/-- The global replacement `replace(/\s+/g, " ")`: each maximal run of
whitespace becomes a single ASCII space. The Boolean argument records
whether the previous character belonged to a whitespace run. -/
def collapseWsAux : Bool → Str → Str
  | _, [] => []
  | prevWs, c :: rest =>
    if isWsJs c then
      if prevWs then collapseWsAux true rest
      else ' ' :: collapseWsAux true rest
    else c :: collapseWsAux false rest

/-- `replace(/\s+/g, " ")`. -/
def collapseWs (s : Str) : Str := collapseWsAux false s

/-- `String.prototype.trim`. -/
def trimJs (s : Str) : Str :=
  ((s.dropWhile isWsJs).reverse.dropWhile isWsJs).reverse

/-- The character-level stages of `norm` before whitespace handling:
lower-case, NFKD, strip the combining marks U+0300..U+036F, map `’` to
the ASCII apostrophe. -/
def normCore (s : Str) : Str :=
  (((s.map jsToLower).flatMap nfkd).filter (fun c => !(isMark c))).map quoteRepl

/-- The team-name normalizer `norm` shared verbatim by
`sync-flashscore.ts`, its earlier iterations and `scrape-standings.mjs`:
lower-case, NFKD, strip the combining marks U+0300..U+036F, map `’` to
the ASCII apostrophe, collapse whitespace runs to single spaces, trim. -/
def norm (s : Str) : Str := trimJs (collapseWs (normCore s))

/-- A character left fixed by every character-level stage of `norm`:
lower-casing, NFKD, mark stripping and quote replacement. -/
def stableChar (c : Char) : Bool :=
  (jsToLower c == c) && (nfkd c == [c]) && !(isMark c) && (c != rsquo)

/-- No two adjacent whitespace characters (the shape of a string after
whitespace collapsing). -/
def noWsPair (a b : Char) : Prop := ¬(isWsJs a = true ∧ isWsJs b = true)

/-- Shorthand turning a Lean string literal into the model type. -/
def jstr (s : String) : Str := s.toList

/-- The JavaScript `\d` class. -/
def isDigitJs (c : Char) : Bool := c.isDigit

/-- `Number.parseInt(·, 10)` on a pure digit string. -/
def digitsToNat (ds : Str) : Nat := ds.foldl (fun acc c => acc * 10 + (c.toNat - 48)) 0

/-- `String.prototype.replace(target, repl)` for one-character arguments:
only the first occurrence is replaced. -/
def replaceFirstChar (tgt repl : Char) : Str → Str
  | [] => []
  | c :: rest => if c = tgt then repl :: rest else c :: replaceFirstChar tgt repl rest

/-- The en dash U+2013 written `–` in `parseScore`. -/
def endash : Char := Char.ofNat 0x2013

/-- `parseScore` of `sync-flashscore.ts` (identical in the earlier
iterations): trim, replace the first en dash by a hyphen, return null for
a bare hyphen or the empty string or any string that is not purely
decimal digits, otherwise the parsed integer. -/
def parseScore (x : Str) : Option Int :=
  let t := replaceFirstChar endash '-' (trimJs x)
  if t = ['-'] then none
  else if t = [] then none
  else if t.all isDigitJs then some (Int.ofNat (digitsToNat t))
  else none

/-- `String.prototype.includes`: substring containment. -/
def containsSub (needle : Str) : Str → Bool
  | [] => needle.isEmpty
  | c :: rest => needle.isPrefixOf (c :: rest) || containsSub needle rest

/-- `\/(A|B|...)\/.test(s)`: the string contains one of the literals. -/
def containsAny (s : Str) (pats : List Str) : Bool := pats.any (fun p => containsSub p s)

/-- The JavaScript `\w` class, which also defines `\b`. -/
def isWordChar (c : Char) : Bool :=
  (decide ('A' ≤ c) && decide (c ≤ 'Z')) || (decide ('a' ≤ c) && decide (c ≤ 'z')) ||
  (decide ('0' ≤ c) && decide (c ≤ '9')) || c == '_'

/-- Whether position `i` of `s` holds a word character (out of range: no). -/
def wordAt (s : Str) (i : Nat) : Bool := isWordChar (s.getD i (Char.ofNat 0))

/-- The JavaScript `\b` assertion at position `i` (between `i - 1` and `i`). -/
def boundaryAt (s : Str) (i : Nat) : Bool :=
  (if i = 0 then false else wordAt s (i - 1)) != wordAt s i

/-- Length of the maximal `\s*` munch. -/
def countWhile (p : Char → Bool) (l : Str) : Nat := (l.takeWhile p).length

/-- One backtracking attempt of `\b(\d{1,3})\s*'\b` at position `i` with the
digit group forced to length `k`: digits, then greedy whitespace, then an
apostrophe followed by a word boundary. -/
def minuteTryLen (s : Str) (i k : Nat) : Option Str :=
  let grp := (s.drop i).take k
  if decide (grp.length = k) && grp.all isDigitJs then
    let j := i + k
    let q := j + countWhile isWsJs (s.drop j)
    if s.getD q (Char.ofNat 0) == apos && boundaryAt s (q + 1) then some grp
    else none
  else none

/-- The regex `\b(\d{1,3})\s*'\b` attempted at start position `i`, with the
greedy `\d{1,3}` trying three, two, then one digit. -/
def minuteMatchAt (s : Str) (i : Nat) : Option Str :=
  if boundaryAt s i then
    ((minuteTryLen s i 3).orElse fun _ =>
      (minuteTryLen s i 2).orElse fun _ => minuteTryLen s i 1)
  else none

/-- `s.match(\/\b(\d{1,3})\s*'\b\/)`: leftmost match, parsed minute. -/
def minuteMatch (s : Str) : Option Nat :=
  ((List.range (s.length + 1)).findSome? (minuteMatchAt s)).map digitsToNat

/-- Match statuses of the pipeline: the database strings NS, LIVE, FT. -/
inductive MatchStatus
  | NS
  | LIVE
  | FT
deriving DecidableEq, Repr

/-- `detectStatusAndMinute` of `sync-flashscore.ts` (identical in
`part_001` and `part_002`): upper-case and trim, then check the
cancellation vocabulary, the full-time vocabulary, the live vocabulary,
and finally the minute marker regex. -/
def detectStatusAndMinute (raw : Str) : MatchStatus × Option Nat :=
  let s := trimJs (raw.map jsToUpper)
  if containsAny s [jstr "POSTP", jstr "CANC", jstr "CANCEL", jstr "ABAND", jstr "ABD"] then
    (.NS, none)
  else if containsAny s [jstr "FT", jstr "FINAL", jstr "AET"] then (.FT, none)
  else if containsAny s [jstr "HT", jstr "LIVE"] then (.LIVE, none)
  else
    match minuteMatch s with
    | some n => (.LIVE, some n)
    | none => (.NS, none)

/-- One backtracking attempt of the second group `(\d{2,4})\b` of the
season range regex, with the group forced to length `k`. -/
def rangeTryG2 (s : Str) (pos k : Nat) : Option Str :=
  let grp := (s.drop pos).take k
  if decide (grp.length = k) && grp.all isDigitJs && boundaryAt s (pos + k) then some grp
  else none

/-- The regex `\b(\d{4})\s*\/\s*(\d{2,4})\b` attempted at start position
`i`, with the greedy `\d{2,4}` trying four, three, then two digits. -/
def rangeMatchAt (s : Str) (i : Nat) : Option (Str × Str) :=
  if boundaryAt s i then
    let g1 := (s.drop i).take 4
    if decide (g1.length = 4) && g1.all isDigitJs then
      let sl := i + 4 + countWhile isWsJs (s.drop (i + 4))
      if s.getD sl (Char.ofNat 0) == '/' then
        let p2 := sl + 1 + countWhile isWsJs (s.drop (sl + 1))
        ((rangeTryG2 s p2 4).orElse fun _ =>
          (rangeTryG2 s p2 3).orElse fun _ => rangeTryG2 s p2 2).map (g1, ·)
      else none
    else none
  else none

/-- Leftmost match of the season range regex. -/
def rangeMatch (s : Str) : Option (Str × Str) :=
  (List.range (s.length + 1)).findSome? (rangeMatchAt s)

/-- The regex `\b(19\d{2}|20\d{2})\b` attempted at start position `i`. -/
def yearMatchAt (s : Str) (i : Nat) : Option Str :=
  if boundaryAt s i then
    let g := (s.drop i).take 4
    if decide (g.length = 4) && g.all isDigitJs && boundaryAt s (i + 4) &&
        (decide (g.take 2 = jstr "19") || decide (g.take 2 = jstr "20")) then some g
    else none
  else none

/-- Leftmost match of the year regex. -/
def yearMatch (s : Str) : Option Str :=
  (List.range (s.length + 1)).findSome? (yearMatchAt s)

/-- `seasonSortKey` of `sync-flashscore.ts` (identical in `part_001` and
`part_002`): for a `YYYY/YY` or `YYYY/YYYY` range the maximum of the two
parsed years (a two-digit second year borrows the century of the first),
else a plain `19xx`/`20xx` year, else zero. -/
def seasonSortKey (name : Str) : Nat :=
  let s := trimJs name
  match rangeMatch s with
  | some (g1, g2) =>
    let a := digitsToNat g1
    let b := if g2.length = 2 then digitsToNat (g1.take 2 ++ g2) else digitsToNat g2
    max a b
  | none =>
    match yearMatch s with
    | some g => digitsToNat g
    | none => 0

/-- `n.split(" ")`: split on each single space character. -/
def splitOnSpaceAux : Str → Str → List Str
  | [], cur => [cur.reverse]
  | c :: rest, cur =>
    if c = ' ' then cur.reverse :: splitOnSpaceAux rest []
    else splitOnSpaceAux rest (c :: cur)

/-- `n.split(" ")` as used by `resolveTeamId`. -/
def splitOnSpace (s : Str) : List Str := splitOnSpaceAux s []

/-- `n.split(" ").filter(Boolean)`: the nonempty tokens of the normalized
name. -/
def tokensOf (n : Str) : List Str := (splitOnSpace n).filter (fun t => !t.isEmpty)

/-- The fuzzy score of one canonical name in `resolveTeamId`: +2 when one
of the two normalized strings contains the other, +1 per token of the raw
name of length at least 3 contained in the candidate. -/
def scoreOf (n : Str) (tokens : List Str) (candidate : Str) : Nat :=
  (if containsSub n candidate || containsSub candidate n then 2 else 0) +
    (tokens.filter (fun t => decide (3 ≤ t.length) && containsSub t candidate)).length

/-- The best-candidate scan of `resolveTeamId`: keep the first name whose
score strictly exceeds the best so far (initially null with score 0). -/
def fuzzyFold (n : Str) (tokens : List Str) (names : List Str) : Option Str × Nat :=
  names.foldl
    (fun st cand =>
      let sc := scoreOf n tokens cand
      if st.2 < sc then (some cand, sc) else st)
    (none, 0)

/-- The fuzzy fallback of `resolveTeamId`: fail on a null or empty best
name or a best score below 2, else look the best name up in the map
(JavaScript `?? null`). -/
def fuzzyResolve (n : Str) (teamsMap : List (Str × Nat)) (names : List Str) : Option Nat :=
  match fuzzyFold n (tokensOf n) names with
  | (some bestName, bestScore) =>
    if bestName.isEmpty || decide (bestScore < 2) then none
    else lookupA bestName teamsMap
  | (none, _) => none

/-- `resolveTeamId` of `sync-flashscore.ts`: normalize, fail on an empty
key, return a direct map hit (JavaScript truthiness: an id of 0 falls
through), otherwise run the fuzzy fallback. -/
def resolveTeamId (rawName : Str) (teamsMap : List (Str × Nat)) (teamNamesNorm : List Str) :
    Option Nat :=
  let n := norm rawName
  if n.isEmpty then none
  else
    match lookupA n teamsMap with
    | some d => if d = 0 then fuzzyResolve n teamsMap teamNamesNorm else some d
    | none => fuzzyResolve n teamsMap teamNamesNorm

/-- Insertion step of the model of `Array.prototype.sort` under a
JavaScript comparator: a new element goes after every element the
comparator does not order strictly after it, preserving stability. -/
def insCmp {α : Type} (cmp : α → α → Int) (x : α) : List α → List α
  | [] => [x]
  | y :: ys => if cmp y x ≤ 0 then y :: insCmp cmp x ys else x :: y :: ys

/-- Model of `Array.prototype.sort(cmp)` for a consistent comparator:
stable insertion sort (ES2019 sort is stable, and a stable sorted
permutation is unique). -/
def jsSort {α : Type} (cmp : α → α → Int) (l : List α) : List α :=
  l.foldl (fun acc x => insCmp cmp x acc) []

/-- A season row as selected by the pipeline scripts. -/
structure Season where
  id : Nat
  name : Str
deriving DecidableEq, Repr

/-- The season comparator of `sync-flashscore.ts`:
`seasonSortKey(b.name) - seasonSortKey(a.name)`. -/
def seasonSyncCmp (a b : Season) : Int :=
  (seasonSortKey b.name : Int) - (seasonSortKey a.name : Int)

/-- Season choice of `getLatestSeasonIdByCompSlug` in `sync-flashscore.ts`
(and `part_001`, `part_002`): sort by `seasonSortKey` descending and take
the first row. -/
def pickSeasonSync (seasons : List Season) : Option Season :=
  (jsSort seasonSyncCmp seasons).head?

/-- Model of `String.prototype.localeCompare` as three-way code-point
comparison (collations agree with it on the digit/letter season names at
stake). -/
def localeCmp : Str → Str → Int
  | [], [] => 0
  | [], _ :: _ => -1
  | _ :: _, [] => 1
  | a :: ra, b :: rb => if a < b then -1 else if b < a then 1 else localeCmp ra rb

/-- The season comparator of `scrape-standings.mjs`:
`b.name.localeCompare(a.name)`. -/
def seasonStandingsCmp (a b : Season) : Int := localeCmp b.name a.name

/-- Season choice of `getLatestSeasonIdByCompSlug` in
`scrape-standings.mjs`: sort by `localeCompare` on the season name,
descending, and take the first row — a lexical ordering, not the parsed
year heuristic. -/
def pickSeasonStandings (seasons : List Season) : Option Season :=
  (jsSort seasonStandingsCmp seasons).head?

/-- A stored match row as selected by `getCandidates`. -/
structure DbMatch where
  id : Nat
  season_id : Nat
  match_date : Int
  home_team_id : Nat
  away_team_id : Nat
  status : MatchStatus
  minute : Option Nat
  home_score : Option Int
  away_score : Option Int
deriving DecidableEq, Repr

/-- A scraped fixture row (`home`, `away`, score texts, status text). -/
structure ScrapedRow where
  home : Str
  away : Str
  hs : Str
  sas : Str
  statusOrTime : Str
deriving DecidableEq, Repr

/-- `getCandidates` of `sync-flashscore.ts`: matches of the season inside
the window from three days back to seven days ahead whose status is not
FT, restricted to LIVE when `LIVE_ONLY` is set. Dates are modelled as day
numbers (the script compares ISO date strings, which is the same
order). -/
def getCandidates (liveOnly : Bool) (nowDay : Int) (seasonId : Nat) (db : List DbMatch) :
    List DbMatch :=
  db.filter fun m =>
    m.season_id == seasonId && decide (nowDay - 3 ≤ m.match_date) &&
      decide (m.match_date ≤ nowDay + 7) && !(m.status == .FT) &&
      (!liveOnly || m.status == .LIVE)

/-- The candidate index lookup: the list stored under the key
`homeId__awayId`, in candidate order (the index is built by pushing each
candidate onto the list of its key). -/
def keyIndexGet (cands : List DbMatch) (h a : Nat) : List DbMatch :=
  cands.filter fun m => m.home_team_id == h && m.away_team_id == a

/-- `dateDistanceDays` up to the positive constant 86400000 the script
divides by: the absolute distance in milliseconds between the match date
at midnight UTC and now. -/
def distMs (nowMs : Int) (m : DbMatch) : Int := |m.match_date * 86400000 - nowMs|

/-- `pickBestCandidate`: sort by date distance ascending, take the first. -/
def pickBestCandidate (nowMs : Int) (possible : List DbMatch) : Option DbMatch :=
  (jsSort (fun a b => distMs nowMs a - distMs nowMs b) possible).head?

/-- The candidate lookup of the main loop: try the `homeId__awayId` key,
fall back to the swapped key only when the first list is missing or
empty, then pick the best candidate. -/
def resolveTarget (cands : List DbMatch) (h a : Nat) (nowMs : Int) : Option DbMatch :=
  let possible := keyIndexGet cands h a
  let possible2 := if possible.isEmpty then keyIndexGet cands a h else possible
  if possible2.isEmpty then none else pickBestCandidate nowMs possible2

/-- A database patch: `status` and `minute` always present; a score field
is absent (`none`), explicitly null (`some none`), or set to a value
(`some (some v)`). The `updated_at` timestamp the script also writes is
not modelled. -/
structure Patch where
  status : MatchStatus
  minute : Option Nat
  home_score : Option (Option Int)
  away_score : Option (Option Int)
deriving DecidableEq, Repr

/-- The patch construction of `sync-flashscore.ts` lines 507-516: on NS
both scores are explicitly nulled; otherwise a score is included exactly
when `parseScore` returned a value. -/
def buildPatch (st : MatchStatus) (minute : Option Nat) (hs sas : Option Int) : Patch :=
  if st = .NS then ⟨st, minute, some none, some none⟩
  else ⟨st, minute, hs.map some, sas.map some⟩

/-- The patch construction of the earlier iteration `part_001` lines
507-509: a score is included exactly when `parseScore` returned a value,
with no NS nulling. -/
def buildPatchLegacy (st : MatchStatus) (minute : Option Nat) (hs sas : Option Int) : Patch :=
  ⟨st, minute, hs.map some, sas.map some⟩

/-- The patch a scraped row produces in `sync-flashscore.ts`. -/
def mkPatchForRow (row : ScrapedRow) : Patch :=
  let sm := detectStatusAndMinute row.statusOrTime
  buildPatch sm.1 sm.2 (parseScore row.hs) (parseScore row.sas)

/-- The patch a scraped row produces in `part_001`. -/
def mkPatchForRowLegacy (row : ScrapedRow) : Patch :=
  let sm := detectStatusAndMinute row.statusOrTime
  buildPatchLegacy sm.1 sm.2 (parseScore row.hs) (parseScore row.sas)

/-- The effect of `update(patch).eq("id", …)` on the targeted row: absent
patch fields keep their stored value, present fields overwrite it. -/
def applyPatch (m : DbMatch) (p : Patch) : DbMatch :=
  { m with
    status := p.status
    minute := p.minute
    home_score := p.home_score.getD m.home_score
    away_score := p.away_score.getD m.away_score }

/-- `dedupeScrapedRows`: drop rows repeating a composite key (normalized
home, normalized away, score texts, status text). The script joins the
fields with a separator; the model keys on the tuple. -/
def dedupeScrapedRows (rows : List ScrapedRow) : List ScrapedRow :=
  (rows.foldl
    (fun (st : List (Str × Str × Str × Str × Str) × List ScrapedRow) r =>
      let k := (norm r.home, norm r.away, r.hs, r.sas, r.statusOrTime)
      if st.1.contains k then st else (k :: st.1, r :: st.2))
    ([], [])).2.reverse

/-- One iteration of the per-row update loop of `sync-flashscore.ts`
lines 482-523: resolve both team names (a null or 0 id skips the row),
look up and pick the target candidate (a 0 id skips), skip an id already
updated in this run, else record the patch. The state is the
updated-ids set together with the patches applied so far. -/
def stepRow (teamsMap : List (Str × Nat)) (names : List Str) (cands : List DbMatch)
    (nowMs : Int) (st : List Nat × List (Nat × Patch)) (row : ScrapedRow) :
    List Nat × List (Nat × Patch) :=
  match resolveTeamId row.home teamsMap names, resolveTeamId row.away teamsMap names with
  | some h, some a =>
    if h == 0 || a == 0 then st
    else
      match resolveTarget cands h a nowMs with
      | some target =>
        if target.id == 0 then st
        else if st.1.contains target.id then st
        else (target.id :: st.1, st.2 ++ [(target.id, mkPatchForRow row)])
      | none => st
  | _, _ => st

/-- The per-competition body of `main` in `sync-flashscore.ts`: fetch
candidates (an empty list skips the competition before scraping),
dedupe the scraped rows, and run the update loop. The result is the list
of applied `(match id, patch)` updates in order. -/
def runCompetition (teamsMap : List (Str × Nat)) (names : List Str) (liveOnly : Bool)
    (nowDay nowMs : Int) (seasonId : Nat) (db : List DbMatch) (scraped : List ScrapedRow) :
    List (Nat × Patch) :=
  let cands := getCandidates liveOnly nowDay seasonId db
  if cands.isEmpty then []
  else ((dedupeScrapedRows scraped).foldl (stepRow teamsMap names cands nowMs) ([], [])).2

/-- The observable outcome of one `main` run: whether the browser was
launched and which updates were applied. -/
structure RunResult where
  browserLaunched : Bool
  patches : List (Nat × Patch)
deriving DecidableEq, Repr

/-- `main` of `sync-flashscore.ts`: under `LIVE_ONLY` a database with no
LIVE match at all returns before the browser is launched; otherwise every
configured competition (given here with its resolved season id and its
scraped rows) is processed in order. -/
def mainModel (liveOnly : Bool) (db : List DbMatch) (teamsMap : List (Str × Nat))
    (names : List Str) (nowDay nowMs : Int) (comps : List (Nat × List ScrapedRow)) :
    RunResult :=
  if liveOnly && (db.filter fun m => m.status == .LIVE).isEmpty then ⟨false, []⟩
  else
    ⟨true,
      comps.foldl
        (fun acc c => acc ++ runCompetition teamsMap names liveOnly nowDay nowMs c.1 db c.2)
        []⟩

/-- `pointsForResult` of `LeagueClient.tsx` (part_006). -/
structure ResultPoints where
  homePts : Nat
  awayPts : Nat
  homeW : Nat
  awayW : Nat
  d : Nat
deriving DecidableEq, Repr

/-- `pointsForResult`: 4/0 to the winner of a decisive result, 2/2 on a
draw. -/
def pointsForResult (home away : Int) : ResultPoints :=
  if home > away then ⟨4, 0, 1, 0, 0⟩
  else if away > home then ⟨0, 4, 0, 1, 0⟩
  else ⟨2, 2, 0, 0, 1⟩

/-- One accumulated standings row of the compute mode. -/
structure StandingRow where
  teamId : Nat
  team : Str
  pj : Nat
  w : Nat
  d : Nat
  l : Nat
  pf : Int
  pa : Int
  pts : Nat
deriving DecidableEq, Repr

/-- One joined match row as read by `fetchStandingsComputed` (status,
joined team ids and names, scores; a 0 id models a null join, skipped by
the JavaScript truthiness check). -/
structure FtMatchRow where
  status : MatchStatus
  home_id : Nat
  home_name : Str
  away_id : Nat
  away_name : Str
  home_score : Option Int
  away_score : Option Int
deriving DecidableEq, Repr

/-- `Map.prototype.set` keeping insertion order: overwrite in place or
append. -/
def mapSet (k : Nat) (v : StandingRow) : List (Nat × StandingRow) → List (Nat × StandingRow)
  | [] => [(k, v)]
  | (k2, v2) :: rest => if k = k2 then (k, v) :: rest else (k2, v2) :: mapSet k v rest

/-- The per-match accumulation of `fetchStandingsComputed`: skip null
joins and non-numeric scores, else add played, points for and against,
the league points of `pointsForResult`, and the won/drawn/lost tallies.
The two joined ids of a row are assumed distinct (a fixture pairs two
teams), matching the aliasing behaviour of the script. -/
def standingsStep (table : List (Nat × StandingRow)) (r : FtMatchRow) :
    List (Nat × StandingRow) :=
  if r.home_id == 0 || r.away_id == 0 then table
  else
    match r.home_score, r.away_score with
    | some hs, some sas =>
      let home0 := (lookupA r.home_id table).getD ⟨r.home_id, r.home_name, 0, 0, 0, 0, 0, 0, 0⟩
      let away0 := (lookupA r.away_id table).getD ⟨r.away_id, r.away_name, 0, 0, 0, 0, 0, 0, 0⟩
      let res := pointsForResult hs sas
      let home1 := { home0 with
        pj := home0.pj + 1, pf := home0.pf + hs, pa := home0.pa + sas,
        pts := home0.pts + res.homePts }
      let away1 := { away0 with
        pj := away0.pj + 1, pf := away0.pf + sas, pa := away0.pa + hs,
        pts := away0.pts + res.awayPts }
      let home2 :=
        if res.d = 1 then { home1 with d := home1.d + 1 }
        else { home1 with w := home1.w + res.homeW, l := home1.l + res.awayW }
      let away2 :=
        if res.d = 1 then { away1 with d := away1.d + 1 }
        else { away1 with w := away1.w + res.awayW, l := away1.l + res.homeW }
      mapSet r.away_id away2 (mapSet r.home_id home2 table)
    | _, _ => table

/-- The standings comparator of `fetchStandingsComputed`: points
descending, then point difference descending, then points-for
descending, then team name. -/
def cmpRows (a b : StandingRow) : Int :=
  if a.pts ≠ b.pts then (b.pts : Int) - (a.pts : Int)
  else
    let ad := a.pf - a.pa
    let bd := b.pf - b.pa
    if bd ≠ ad then bd - ad
    else if b.pf ≠ a.pf then b.pf - a.pf
    else localeCmp a.team b.team

/-- The per-competition badge thresholds of `STANDINGS_RULES`. -/
structure StandingsRules where
  topChampions : Option Nat
  topEurope : Option Nat
  bottomRelegation : Option Nat
deriving DecidableEq, Repr

/-- The qualification/relegation badges. -/
inductive Badge
  | champions
  | europe
  | relegation
deriving DecidableEq, Repr

/-- The badge assignment of `fetchStandingsComputed` (a 0 threshold is
falsy in JavaScript and disables its rule). -/
def badgeFor (rules : Option StandingsRules) (position total : Nat) : Option Badge :=
  let b1 : Option Badge :=
    match rules.bind (·.topChampions) with
    | some k => if k ≠ 0 && decide (position ≤ k) then some .champions else none
    | none => none
  let b2 : Option Badge :=
    match b1 with
    | some b => some b
    | none =>
      match rules.bind (·.topEurope) with
      | some k => if k ≠ 0 && decide (position ≤ k) then some .europe else none
      | none => none
  match rules.bind (·.bottomRelegation) with
  | some k => if k ≠ 0 && decide (total - k < position) then some .relegation else b2
  | none => b2

/-- A standings row with its assigned position and badge. -/
structure RankedRow where
  row : StandingRow
  position : Nat
  badge : Option Badge
deriving DecidableEq, Repr

/-- `fetchStandingsComputed` of `LeagueClient.tsx`: initialize a zero row
per season team (in the order of the team map), fold the FULL_TIME
matches through `standingsStep`, sort the table values with `cmpRows`,
and assign positions and badges. -/
def standingsComputed (teams : List (Nat × Str)) (ms : List FtMatchRow)
    (rules : Option StandingsRules) : List RankedRow :=
  let table0 : List (Nat × StandingRow) :=
    teams.foldl (fun t p => mapSet p.1 ⟨p.1, p.2, 0, 0, 0, 0, 0, 0, 0⟩ t) []
  let table := ((ms.filter fun r => r.status == .FT).foldl standingsStep table0)
  let rows := jsSort cmpRows (table.map (·.2))
  let total := rows.length
  rows.enum.map fun p => ⟨p.2, p.1 + 1, badgeFor rules (p.1 + 1) total⟩

/-! ## Generic lemmas about the sort model -/

theorem mem_insCmp {α : Type} (cmp : α → α → Int) (x : α) (l : List α) (a : α) :
    a ∈ insCmp cmp x l ↔ a = x ∨ a ∈ l := by
  induction l with
  | nil => simp [insCmp]
  | cons y ys ih =>
    simp only [insCmp]
    split
    · rw [List.mem_cons, ih, List.mem_cons]
      tauto
    · simp only [List.mem_cons]

theorem mem_jsSort {α : Type} (cmp : α → α → Int) (l : List α) (a : α) :
    a ∈ jsSort cmp l ↔ a ∈ l := by
  suffices h : ∀ acc : List α,
      a ∈ l.foldl (fun acc x => insCmp cmp x acc) acc ↔ a ∈ acc ∨ a ∈ l by
    simpa [jsSort] using h []
  induction l with
  | nil => simp
  | cons y ys ih =>
    intro acc
    simp only [List.foldl_cons, ih, mem_insCmp, List.mem_cons]
    tauto

theorem jsSort_eq_nil_iff {α : Type} (cmp : α → α → Int) (l : List α) :
    jsSort cmp l = [] ↔ l = [] := by
  constructor
  · intro h
    cases l with
    | nil => rfl
    | cons x xs =>
      have hx : x ∈ jsSort cmp (x :: xs) := (mem_jsSort cmp _ x).mpr (by simp)
      rw [h] at hx
      simp at hx
  · intro h
    subst h
    rfl

theorem pairwise_insCmp {α : Type} (cmp : α → α → Int)
    (htot : ∀ a b, cmp a b ≤ 0 ∨ cmp b a ≤ 0)
    (htr : ∀ a b c, cmp a b ≤ 0 → cmp b c ≤ 0 → cmp a c ≤ 0)
    (x : α) (l : List α) (h : l.Pairwise fun a b => cmp a b ≤ 0) :
    (insCmp cmp x l).Pairwise fun a b => cmp a b ≤ 0 := by
  induction l with
  | nil => simp [insCmp]
  | cons y ys ih =>
    rw [List.pairwise_cons] at h
    simp only [insCmp]
    split
    · rename_i hyx
      rw [List.pairwise_cons]
      refine ⟨?_, ih h.2⟩
      intro z hz
      rcases (mem_insCmp cmp x ys z).mp hz with hz | hz
      · subst hz; exact hyx
      · exact h.1 z hz
    · rename_i hyx
      have hxy : cmp x y ≤ 0 := by
        rcases htot y x with h1 | h1
        · exact absurd h1 hyx
        · exact h1
      rw [List.pairwise_cons]
      refine ⟨?_, List.pairwise_cons.mpr h⟩
      intro z hz
      rcases List.mem_cons.mp hz with hz | hz
      · subst hz; exact hxy
      · exact htr x y z hxy (h.1 z hz)

theorem pairwise_jsSort {α : Type} (cmp : α → α → Int)
    (htot : ∀ a b, cmp a b ≤ 0 ∨ cmp b a ≤ 0)
    (htr : ∀ a b c, cmp a b ≤ 0 → cmp b c ≤ 0 → cmp a c ≤ 0)
    (l : List α) : (jsSort cmp l).Pairwise fun a b => cmp a b ≤ 0 := by
  suffices h : ∀ acc : List α, (acc.Pairwise fun a b => cmp a b ≤ 0) →
      ((l.foldl (fun acc x => insCmp cmp x acc) acc).Pairwise fun a b => cmp a b ≤ 0) by
    exact h [] (by simp)
  induction l with
  | nil => intro acc hacc; simpa using hacc
  | cons y ys ih =>
    intro acc hacc
    simpa using ih _ (pairwise_insCmp cmp htot htr y acc hacc)

theorem jsSort_head_le {α : Type} (cmp : α → α → Int)
    (htot : ∀ a b, cmp a b ≤ 0 ∨ cmp b a ≤ 0)
    (htr : ∀ a b c, cmp a b ≤ 0 → cmp b c ≤ 0 → cmp a c ≤ 0)
    (l : List α) (m : α) (rest : List α) (hs : jsSort cmp l = m :: rest) :
    ∀ x ∈ l, cmp m x ≤ 0 := by
  intro x hx
  have hx2 : x ∈ m :: rest := by
    rw [← hs]
    exact (mem_jsSort cmp l x).mpr hx
  have hp := pairwise_jsSort cmp htot htr l
  rw [hs, List.pairwise_cons] at hp
  rcases List.mem_cons.mp hx2 with hx2 | hx2
  · rw [hx2]
    rcases htot m m with h1 | h1 <;> exact h1
  · exact hp.1 x hx2

/-- `pickBestCandidate` returns a member of the list minimizing the date
distance, whenever the list is nonempty. -/
theorem pickBestCandidate_spec (nowMs : Int) (l : List DbMatch) (hl : l ≠ []) :
    ∃ t, pickBestCandidate nowMs l = some t ∧ t ∈ l ∧
      ∀ x ∈ l, distMs nowMs t ≤ distMs nowMs x := by
  rcases hsort : jsSort (fun a b => distMs nowMs a - distMs nowMs b) l with _ | ⟨m, rest⟩
  · exact absurd ((jsSort_eq_nil_iff _ l).mp hsort) hl
  · refine ⟨m, ?_, ?_, ?_⟩
    · simp [pickBestCandidate, hsort]
    · have : m ∈ jsSort (fun a b => distMs nowMs a - distMs nowMs b) l := by
        rw [hsort]; simp
      exact (mem_jsSort _ l m).mp this
    · intro x hx
      have h := jsSort_head_le (fun a b => distMs nowMs a - distMs nowMs b)
        (fun a b => by dsimp only; omega) (fun a b c => by dsimp only; omega) l m rest hsort x hx
      dsimp only at h
      omega

/-! ## Claims C7, C8, C4 -/

/-- Claim C7: for each resolved scraped row the Reconciler looks up
candidates by the key `homeId__awayId`, retries with the swapped key
`awayId__homeId` only when the first lookup yields no candidate, and when
several candidates remain selects the one whose `match_date` has the
smallest absolute (millisecond, hence day) distance to now. -/
theorem C7_candidate_lookup_and_date_pick (cands : List DbMatch) (h a : Nat) (nowMs : Int) :
    (keyIndexGet cands h a ≠ [] →
      ∃ t, resolveTarget cands h a nowMs = some t ∧ t ∈ keyIndexGet cands h a ∧
        ∀ x ∈ keyIndexGet cands h a, distMs nowMs t ≤ distMs nowMs x) ∧
    (keyIndexGet cands h a = [] → keyIndexGet cands a h ≠ [] →
      ∃ t, resolveTarget cands h a nowMs = some t ∧ t ∈ keyIndexGet cands a h ∧
        ∀ x ∈ keyIndexGet cands a h, distMs nowMs t ≤ distMs nowMs x) ∧
    (keyIndexGet cands h a = [] → keyIndexGet cands a h = [] →
      resolveTarget cands h a nowMs = none) := by
  refine ⟨?_, ?_, ?_⟩
  · intro hne
    have hiso : (keyIndexGet cands h a).isEmpty = false := by
      cases hk : keyIndexGet cands h a with
      | nil => exact absurd hk hne
      | cons y ys => rfl
    rcases pickBestCandidate_spec nowMs (keyIndexGet cands h a) hne with ⟨t, h1, h2, h3⟩
    exact ⟨t, by simp [resolveTarget, hiso, h1], h2, h3⟩
  · intro he hne
    have hiso : (keyIndexGet cands h a).isEmpty = true := by simp [he]
    have hiso2 : (keyIndexGet cands a h).isEmpty = false := by
      cases hk : keyIndexGet cands a h with
      | nil => exact absurd hk hne
      | cons y ys => rfl
    rcases pickBestCandidate_spec nowMs (keyIndexGet cands a h) hne with ⟨t, h1, h2, h3⟩
    exact ⟨t, by simp [resolveTarget, hiso, hiso2, h1], h2, h3⟩
  · intro he1 he2
    simp [resolveTarget, he1, he2]

/-- Witness for C7 at a one-candidate index hit on the direct key. -/
theorem C7_witness :
    keyIndexGet [⟨1, 1, 0, 2, 3, .NS, none, none, none⟩] 2 3 ≠ [] ∧
    (∃ t, resolveTarget [⟨1, 1, 0, 2, 3, .NS, none, none, none⟩] 2 3 0 = some t ∧
      t ∈ keyIndexGet [⟨1, 1, 0, 2, 3, .NS, none, none, none⟩] 2 3 ∧
      ∀ x ∈ keyIndexGet [⟨1, 1, 0, 2, 3, .NS, none, none, none⟩] 2 3,
        distMs 0 t ≤ distMs 0 x) :=
  ⟨by decide,
    (C7_candidate_lookup_and_date_pick [⟨1, 1, 0, 2, 3, .NS, none, none, none⟩] 2 3 0).1
      (by decide)⟩

set_option maxHeartbeats 2000000 in
/-- Counterexample to claim C8: `scrape-standings.mjs` picks its season
lexically (`localeCompare` descending), so on the season list
`["2024/25", "Current 2023"]` it selects "Current 2023" although the
parsed year/range heuristic ranks "2024/25" (key 2025) above it
(key 2023) — the sync script, by contrast, picks "2024/25". -/
theorem C8_counterexample :
    pickSeasonStandings [⟨1, jstr "2024/25"⟩, ⟨2, jstr "Current 2023"⟩] =
      some ⟨2, jstr "Current 2023"⟩ ∧
    seasonSortKey (jstr "Current 2023") < seasonSortKey (jstr "2024/25") ∧
    pickSeasonSync [⟨1, jstr "2024/25"⟩, ⟨2, jstr "Current 2023"⟩] =
      some ⟨1, jstr "2024/25"⟩ := by
  refine ⟨by decide, by decide, by decide⟩

/-- Claim C8 as amended: the sync scripts (`sync-flashscore.ts`,
`part_001`, `part_002`) choose the season maximizing the parsed
year/range heuristic `seasonSortKey`; the standings scraper instead
orders season names lexically. -/
theorem C8_sync_season_pick (seasons : List Season) (hne : seasons ≠ []) :
    ∃ s, pickSeasonSync seasons = some s ∧ s ∈ seasons ∧
      ∀ x ∈ seasons, seasonSortKey x.name ≤ seasonSortKey s.name := by
  have htot : ∀ a b : Season, seasonSyncCmp a b ≤ 0 ∨ seasonSyncCmp b a ≤ 0 := by
    intro a b
    unfold seasonSyncCmp
    omega
  have htr : ∀ a b c : Season,
      seasonSyncCmp a b ≤ 0 → seasonSyncCmp b c ≤ 0 → seasonSyncCmp a c ≤ 0 := by
    intro a b c h1 h2
    unfold seasonSyncCmp at h1 h2 ⊢
    omega
  rcases hsort : jsSort seasonSyncCmp seasons with _ | ⟨m, rest⟩
  · exact absurd ((jsSort_eq_nil_iff _ _).mp hsort) hne
  · refine ⟨m, by simp [pickSeasonSync, hsort], ?_, ?_⟩
    · have hm : m ∈ jsSort seasonSyncCmp seasons := by
        rw [hsort]; simp
      exact (mem_jsSort _ _ m).mp hm
    · intro x hx
      have h := jsSort_head_le seasonSyncCmp htot htr seasons m rest hsort x hx
      unfold seasonSyncCmp at h
      omega

/-- Witness for the amended C8 on a concrete two-season list. -/
theorem C8_witness :
    ([⟨1, jstr "2024/25"⟩, ⟨2, jstr "2023/24"⟩] : List Season) ≠ [] ∧
    (∃ s, pickSeasonSync [⟨1, jstr "2024/25"⟩, ⟨2, jstr "2023/24"⟩] = some s ∧
      s ∈ ([⟨1, jstr "2024/25"⟩, ⟨2, jstr "2023/24"⟩] : List Season) ∧
      ∀ x ∈ ([⟨1, jstr "2024/25"⟩, ⟨2, jstr "2023/24"⟩] : List Season),
        seasonSortKey x.name ≤ seasonSortKey s.name) :=
  ⟨by decide, C8_sync_season_pick [⟨1, jstr "2024/25"⟩, ⟨2, jstr "2023/24"⟩] (by decide)⟩

/-- Claim C4 (the code side of the divergence): `detectStatusAndMinute`
maps the live-minute display `52'` to NS with no minute, because the
trailing `\b` of the minute regex has no word character to anchor on
after an apostrophe at the end of the string; a word character after the
apostrophe would make the same regex match. -/
theorem C4_minute_marker_eval :
    detectStatusAndMinute (jstr "52" ++ [apos]) = (.NS, none) ∧
    minuteMatch (jstr "52" ++ [apos]) = none ∧
    detectStatusAndMinute ((jstr "52" ++ [apos]) ++ jstr "X") = (.LIVE, some 52) := by
  refine ⟨by decide, by decide, by decide⟩

/-! ## Reconciler loop lemmas -/

theorem getCandidates_mem (liveOnly : Bool) (nowDay : Int) (seasonId : Nat)
    (db : List DbMatch) (t : DbMatch) :
    t ∈ getCandidates liveOnly nowDay seasonId db ↔
      t ∈ db ∧ t.season_id = seasonId ∧ nowDay - 3 ≤ t.match_date ∧
        t.match_date ≤ nowDay + 7 ∧ t.status ≠ .FT ∧
        (liveOnly = true → t.status = .LIVE) := by
  simp only [getCandidates, List.mem_filter]
  rw [Bool.and_eq_true, Bool.and_eq_true, Bool.and_eq_true, Bool.and_eq_true]
  constructor
  · rintro ⟨hdb, ⟨⟨⟨⟨hs, h1⟩, h2⟩, hft⟩, hlo⟩⟩
    refine ⟨hdb, by simpa using hs, by simpa using h1, by simpa using h2,
      by simpa using hft, ?_⟩
    intro hl
    subst hl
    simpa using hlo
  · rintro ⟨hdb, hs, h1, h2, hft, hlo⟩
    refine ⟨hdb, ⟨⟨⟨⟨by simpa using hs, by simpa using h1⟩, by simpa using h2⟩,
      by simpa using hft⟩, ?_⟩⟩
    cases liveOnly with
    | false => simp
    | true => simpa using hlo rfl

theorem pickBestCandidate_mem (nowMs : Int) (l : List DbMatch) (t : DbMatch)
    (ht : pickBestCandidate nowMs l = some t) : t ∈ l := by
  unfold pickBestCandidate at ht
  rcases hsort : jsSort (fun a b => distMs nowMs a - distMs nowMs b) l with _ | ⟨m, rest⟩
  · rw [hsort] at ht; cases ht
  · rw [hsort] at ht
    obtain rfl : m = t := by simpa using ht
    have hmem : m ∈ jsSort (fun a b => distMs nowMs a - distMs nowMs b) l := by
      rw [hsort]; simp
    exact (mem_jsSort _ l m).mp hmem

theorem resolveTarget_mem (cands : List DbMatch) (h a : Nat) (nowMs : Int) (t : DbMatch)
    (ht : resolveTarget cands h a nowMs = some t) : t ∈ cands := by
  simp only [resolveTarget] at ht
  by_cases hp : (keyIndexGet cands h a).isEmpty
  · rw [if_pos hp] at ht
    by_cases hq : (keyIndexGet cands a h).isEmpty
    · rw [if_pos hq] at ht; cases ht
    · rw [if_neg hq] at ht
      exact List.mem_of_mem_filter (pickBestCandidate_mem _ _ _ ht)
  · rw [if_neg hp] at ht
    rw [if_neg hp] at ht
    exact List.mem_of_mem_filter (pickBestCandidate_mem _ _ _ ht)

theorem stepRow_cases (teamsMap : List (Str × Nat)) (names : List Str) (cands : List DbMatch)
    (nowMs : Int) (st : List Nat × List (Nat × Patch)) (row : ScrapedRow) :
    stepRow teamsMap names cands nowMs st row = st ∨
    ∃ t, t ∈ cands ∧ st.1.contains t.id = false ∧
      stepRow teamsMap names cands nowMs st row =
        (t.id :: st.1, st.2 ++ [(t.id, mkPatchForRow row)]) := by
  unfold stepRow
  split
  · rename_i h a hh ha
    split
    · exact Or.inl rfl
    · rename_i hz
      split
      · rename_i target hr
        split
        · exact Or.inl rfl
        · rename_i h0
          split
          · exact Or.inl rfl
          · rename_i hc
            exact Or.inr ⟨target, resolveTarget_mem cands h a nowMs target hr,
              by simpa using hc, rfl⟩
      · exact Or.inl rfl
  · exact Or.inl rfl

theorem foldRows_invariant (teamsMap : List (Str × Nat)) (names : List Str)
    (cands : List DbMatch) (nowMs : Int) :
    ∀ (rows : List ScrapedRow) (st : List Nat × List (Nat × Patch)),
      (st.2.map Prod.fst).Nodup → (∀ p ∈ st.2, p.1 ∈ st.1) →
      ((rows.foldl (stepRow teamsMap names cands nowMs) st).2.map Prod.fst).Nodup ∧
        ∀ p ∈ (rows.foldl (stepRow teamsMap names cands nowMs) st).2,
          p.1 ∈ (rows.foldl (stepRow teamsMap names cands nowMs) st).1 := by
  intro rows
  induction rows with
  | nil => intro st h1 h2; exact ⟨h1, h2⟩
  | cons r rs ih =>
    intro st h1 h2
    simp only [List.foldl_cons]
    rcases stepRow_cases teamsMap names cands nowMs st r with hcase | ⟨t, _, hcont, hcase⟩
    · rw [hcase]; exact ih st h1 h2
    · rw [hcase]
      have hnotin : t.id ∉ st.1 := by
        intro hmem
        have : st.1.contains t.id = true := by simpa using hmem
        rw [this] at hcont; cases hcont
      apply ih
      · simp only [List.map_append, List.map_cons, List.map_nil]
        rw [List.nodup_append]
        refine ⟨h1, List.nodup_singleton _, ?_⟩
        intro x hx
        simp only [List.mem_singleton]
        intro hxe
        subst hxe
        rcases List.mem_map.mp hx with ⟨p, hp, hpe⟩
        exact hnotin (hpe ▸ h2 p hp)
      · intro p hp
        rcases List.mem_append.mp hp with hp | hp
        · exact List.mem_cons_of_mem _ (h2 p hp)
        · simp only [List.mem_singleton] at hp
          subst hp
          exact List.mem_cons_self _ _

theorem foldRows_provenance (teamsMap : List (Str × Nat)) (names : List Str)
    (cands : List DbMatch) (nowMs : Int) :
    ∀ (rows : List ScrapedRow) (st : List Nat × List (Nat × Patch))
      (p : Nat × Patch),
      p ∈ (rows.foldl (stepRow teamsMap names cands nowMs) st).2 →
      p ∈ st.2 ∨ ∃ t, t ∈ cands ∧ p.1 = t.id ∧ ∃ row ∈ rows, p.2 = mkPatchForRow row := by
  intro rows
  induction rows with
  | nil => intro st p hp; exact Or.inl hp
  | cons r rs ih =>
    intro st p hp
    simp only [List.foldl_cons] at hp
    rcases stepRow_cases teamsMap names cands nowMs st r with hcase | ⟨t, htc, _, hcase⟩
    · rw [hcase] at hp
      rcases ih st p hp with h | ⟨t, h1, h2, row, h3, h4⟩
      · exact Or.inl h
      · exact Or.inr ⟨t, h1, h2, row, List.mem_cons_of_mem _ h3, h4⟩
    · rw [hcase] at hp
      rcases ih _ p hp with h | ⟨t2, h1, h2, row, h3, h4⟩
      · rcases List.mem_append.mp h with h | h
        · exact Or.inl h
        · simp only [List.mem_singleton] at h
          subst h
          exact Or.inr ⟨t, htc, rfl, r, List.mem_cons_self _ _, rfl⟩
      · exact Or.inr ⟨t2, h1, h2, row, List.mem_cons_of_mem _ h3, h4⟩

theorem runCompetition_provenance (teamsMap : List (Str × Nat)) (names : List Str)
    (liveOnly : Bool) (nowDay nowMs : Int) (seasonId : Nat) (db : List DbMatch)
    (scraped : List ScrapedRow) (p : Nat × Patch)
    (hp : p ∈ runCompetition teamsMap names liveOnly nowDay nowMs seasonId db scraped) :
    ∃ t, t ∈ getCandidates liveOnly nowDay seasonId db ∧ p.1 = t.id ∧
      ∃ row, p.2 = mkPatchForRow row := by
  unfold runCompetition at hp
  by_cases he : (getCandidates liveOnly nowDay seasonId db).isEmpty
  · rw [if_pos he] at hp; cases hp
  · rw [if_neg he] at hp
    rcases foldRows_provenance teamsMap names _ nowMs _ ([], []) p hp with h | ⟨t, h1, h2, row, _, h4⟩
    · cases h
    · exact ⟨t, h1, h2, row, h4⟩

theorem runCompetition_nodup (teamsMap : List (Str × Nat)) (names : List Str)
    (liveOnly : Bool) (nowDay nowMs : Int) (seasonId : Nat) (db : List DbMatch)
    (scraped : List ScrapedRow) :
    ((runCompetition teamsMap names liveOnly nowDay nowMs seasonId db scraped).map
      Prod.fst).Nodup := by
  unfold runCompetition
  by_cases he : (getCandidates liveOnly nowDay seasonId db).isEmpty
  · rw [if_pos he]; simp
  · rw [if_neg he]
    exact (foldRows_invariant teamsMap names _ nowMs _ ([], []) (by simp) (by simp)).1

theorem foldl_append_mem {α β : Type} (f : α → List β) :
    ∀ (l : List α) (acc : List β) (p : β),
      p ∈ l.foldl (fun acc c => acc ++ f c) acc → p ∈ acc ∨ ∃ c ∈ l, p ∈ f c := by
  intro l
  induction l with
  | nil => intro acc p hp; exact Or.inl hp
  | cons c cs ih =>
    intro acc p hp
    simp only [List.foldl_cons] at hp
    rcases ih (acc ++ f c) p hp with h | ⟨c2, h1, h2⟩
    · rcases List.mem_append.mp h with h | h
      · exact Or.inl h
      · exact Or.inr ⟨c, List.mem_cons_self _ _, h⟩
    · exact Or.inr ⟨c2, List.mem_cons_of_mem _ h1, h2⟩

theorem mainModel_patches_mem (liveOnly : Bool) (db : List DbMatch)
    (teamsMap : List (Str × Nat)) (names : List Str) (nowDay nowMs : Int)
    (comps : List (Nat × List ScrapedRow)) (p : Nat × Patch)
    (hp : p ∈ (mainModel liveOnly db teamsMap names nowDay nowMs comps).patches) :
    ∃ c ∈ comps, p ∈ runCompetition teamsMap names liveOnly nowDay nowMs c.1 db c.2 := by
  unfold mainModel at hp
  by_cases hearly : (liveOnly && (db.filter fun m => m.status == .LIVE).isEmpty) = true
  · rw [if_pos hearly] at hp; cases hp
  · rw [if_neg hearly] at hp
    rcases foldl_append_mem _ comps [] p hp with h | h
    · cases h
    · exact h

theorem mainfold_nodup_aux (teamsMap : List (Str × Nat)) (names : List Str)
    (liveOnly : Bool) (nowDay nowMs : Int) (db : List DbMatch)
    (hids : (db.map DbMatch.id).Nodup) :
    ∀ (comps : List (Nat × List ScrapedRow)) (acc : List (Nat × Patch)) (done : List Nat),
      (acc.map Prod.fst).Nodup →
      (∀ p ∈ acc, ∃ t, t ∈ db ∧ t.id = p.1 ∧ t.season_id ∈ done) →
      (∀ c ∈ comps, c.1 ∉ done) →
      (comps.map Prod.fst).Nodup →
      ((comps.foldl
          (fun acc c => acc ++ runCompetition teamsMap names liveOnly nowDay nowMs c.1 db c.2)
          acc).map Prod.fst).Nodup := by
  intro comps
  induction comps with
  | nil => intro acc done h1 _ _ _; simpa using h1
  | cons c cs ih =>
    intro acc done h1 h2 h3 h4
    simp only [List.foldl_cons]
    have hprov : ∀ p ∈ runCompetition teamsMap names liveOnly nowDay nowMs c.1 db c.2,
        ∃ t, t ∈ db ∧ t.id = p.1 ∧ t.season_id = c.1 := by
      intro p hp
      rcases runCompetition_provenance teamsMap names liveOnly nowDay nowMs c.1 db c.2 p hp
        with ⟨t, htc, hid, _⟩
      have hdbm := (getCandidates_mem liveOnly nowDay c.1 db t).mp htc
      exact ⟨t, hdbm.1, hid.symm, hdbm.2.1⟩
    apply ih (acc ++ runCompetition teamsMap names liveOnly nowDay nowMs c.1 db c.2)
      (c.1 :: done)
    · simp only [List.map_append]
      rw [List.nodup_append]
      refine ⟨h1, runCompetition_nodup teamsMap names liveOnly nowDay nowMs c.1 db c.2, ?_⟩
      intro x hx
      rcases List.mem_map.mp hx with ⟨p, hp, hpe⟩
      intro hx2
      rcases List.mem_map.mp hx2 with ⟨q, hq, hqe⟩
      rcases h2 p hp with ⟨t1, ht1db, ht1id, ht1season⟩
      rcases hprov q hq with ⟨t2, ht2db, ht2id, ht2season⟩
      have hteq : t1 = t2 := by
        apply List.inj_on_of_nodup_map hids ht1db ht2db
        rw [ht1id, ht2id, hpe, hqe]
      have : c.1 ∈ done := by rw [← ht2season, ← hteq]; exact ht1season
      exact h3 c (List.mem_cons_self _ _) this
    · intro p hp
      rcases List.mem_append.mp hp with hp | hp
      · rcases h2 p hp with ⟨t, htdb, htid, htseason⟩
        exact ⟨t, htdb, htid, List.mem_cons_of_mem _ htseason⟩
      · rcases hprov p hp with ⟨t, htdb, htid, htseason⟩
        exact ⟨t, htdb, htid, htseason ▸ List.mem_cons_self _ _⟩
    · intro c2 hc2
      simp only [List.mem_cons, not_or]
      constructor
      · intro hce
        have hnd := h4
        simp only [List.map_cons, List.nodup_cons] at hnd
        exact hnd.1 (hce ▸ List.mem_map_of_mem Prod.fst hc2)
      · exact h3 c2 (List.mem_cons_of_mem _ hc2)
    · simp only [List.map_cons, List.nodup_cons] at h4
      exact h4.2

theorem mkPatchForRow_ns (r : ScrapedRow)
    (h : (detectStatusAndMinute r.statusOrTime).1 = .NS) :
    mkPatchForRow r =
      ⟨.NS, (detectStatusAndMinute r.statusOrTime).2, some none, some none⟩ := by
  simp only [mkPatchForRow, buildPatch]
  rw [if_pos h, h]

theorem mkPatchForRow_not_ns (r : ScrapedRow)
    (h : (detectStatusAndMinute r.statusOrTime).1 ≠ .NS) :
    mkPatchForRow r =
      ⟨(detectStatusAndMinute r.statusOrTime).1, (detectStatusAndMinute r.statusOrTime).2,
        (parseScore r.hs).map some, (parseScore r.sas).map some⟩ := by
  simp only [mkPatchForRow, buildPatch]
  rw [if_neg h]

theorem mkPatchForRow_status (r : ScrapedRow) :
    (mkPatchForRow r).status = (detectStatusAndMinute r.statusOrTime).1 := by
  by_cases h : (detectStatusAndMinute r.statusOrTime).1 = .NS
  · rw [mkPatchForRow_ns r h, h]
  · rw [mkPatchForRow_not_ns r h]

/-! ## Claims C1, C2, C3, C10 -/

/-- Counterexample to claim C1: the earlier Reconciler iteration
`src/unnamed/part_001` builds its patch without the NS score nulling, so
a row scraped as "Postponed" leaves a previously stored LIVE score in
place (and even writes a freshly parsed score) together with status NS —
a patched match carrying NOT_STARTED with a non-null score. -/
theorem C1_counterexample :
    (mkPatchForRowLegacy ⟨jstr "Ireland", jstr "Italy", jstr "-", jstr "-",
        jstr "Postponed"⟩).status = .NS ∧
    (applyPatch ⟨100, 10, 0, 5, 7, .LIVE, some 30, some 10, some 3⟩
        (mkPatchForRowLegacy ⟨jstr "Ireland", jstr "Italy", jstr "-", jstr "-",
          jstr "Postponed"⟩)).status = .NS ∧
    (applyPatch ⟨100, 10, 0, 5, 7, .LIVE, some 30, some 10, some 3⟩
        (mkPatchForRowLegacy ⟨jstr "Ireland", jstr "Italy", jstr "-", jstr "-",
          jstr "Postponed"⟩)).home_score = some 10 ∧
    (mkPatchForRowLegacy ⟨jstr "Ireland", jstr "Italy", jstr "10", jstr "0",
        jstr "Postponed"⟩).status = .NS ∧
    (mkPatchForRowLegacy ⟨jstr "Ireland", jstr "Italy", jstr "10", jstr "0",
        jstr "Postponed"⟩).home_score = some (some 10) := by
  refine ⟨by decide, by decide, by decide, by decide, by decide⟩

/-- Claim C1 as amended: in the canonical Reconciler
(`sync-flashscore.ts`) every applied patch comes from `mkPatchForRow`,
an NS patch explicitly nulls both scores, a non-NS patch includes a
score exactly when `parseScore` returned a value, and a patched match
never carries status NS together with a non-null score. -/
theorem C1_ns_patch_nulls_scores (liveOnly : Bool) (db : List DbMatch)
    (teamsMap : List (Str × Nat)) (names : List Str) (nowDay nowMs : Int)
    (comps : List (Nat × List ScrapedRow)) (p : Nat × Patch)
    (hp : p ∈ (mainModel liveOnly db teamsMap names nowDay nowMs comps).patches) :
    ∃ r : ScrapedRow, p.2 = mkPatchForRow r ∧
      (p.2.status = .NS → p.2.home_score = some none ∧ p.2.away_score = some none) ∧
      (p.2.status ≠ .NS → p.2.home_score = (parseScore r.hs).map some ∧
        p.2.away_score = (parseScore r.sas).map some) ∧
      ∀ m : DbMatch, (applyPatch m p.2).status = .NS →
        (applyPatch m p.2).home_score = none ∧ (applyPatch m p.2).away_score = none := by
  rcases mainModel_patches_mem liveOnly db teamsMap names nowDay nowMs comps p hp
    with ⟨c, _, hpc⟩
  rcases runCompetition_provenance teamsMap names liveOnly nowDay nowMs c.1 db c.2 p hpc
    with ⟨_, _, _, r, hr⟩
  refine ⟨r, hr, ?_, ?_, ?_⟩
  · intro hns
    have hns0 : (detectStatusAndMinute r.statusOrTime).1 = .NS := by
      rw [← mkPatchForRow_status r, ← hr]
      exact hns
    rw [hr, mkPatchForRow_ns r hns0]
    exact ⟨rfl, rfl⟩
  · intro hns
    have hns0 : (detectStatusAndMinute r.statusOrTime).1 ≠ .NS := by
      intro he
      apply hns
      rw [hr, mkPatchForRow_status r, he]
    rw [hr, mkPatchForRow_not_ns r hns0]
    exact ⟨rfl, rfl⟩
  · intro m hns
    have hns2 : p.2.status = .NS := hns
    have hns0 : (detectStatusAndMinute r.statusOrTime).1 = .NS := by
      rw [← mkPatchForRow_status r, ← hr]
      exact hns2
    rw [hr, mkPatchForRow_ns r hns0]
    exact ⟨rfl, rfl⟩

/-- Witness for the amended C1: a postponed row with a stale scraped
score produces an NS patch whose scores are explicitly nulled. -/
theorem C1_witness :
    ∃ r : ScrapedRow,
      (100, Patch.mk .NS none (some none) (some none)).2 = mkPatchForRow r ∧
      ((100, Patch.mk .NS none (some none) (some none)).2.status = .NS →
        (100, Patch.mk .NS none (some none) (some none)).2.home_score = some none ∧
        (100, Patch.mk .NS none (some none) (some none)).2.away_score = some none) ∧
      ((100, Patch.mk .NS none (some none) (some none)).2.status ≠ .NS →
        (100, Patch.mk .NS none (some none) (some none)).2.home_score =
          (parseScore r.hs).map some ∧
        (100, Patch.mk .NS none (some none) (some none)).2.away_score =
          (parseScore r.sas).map some) ∧
      ∀ m : DbMatch,
        (applyPatch m (100, Patch.mk .NS none (some none) (some none)).2).status = .NS →
        (applyPatch m (100, Patch.mk .NS none (some none) (some none)).2).home_score = none ∧
        (applyPatch m (100, Patch.mk .NS none (some none) (some none)).2).away_score = none :=
  C1_ns_patch_nulls_scores false
    [⟨100, 10, 0, 5, 7, .LIVE, some 30, some 10, some 3⟩]
    [(jstr "ireland", 5), (jstr "italy", 7)] [jstr "ireland", jstr "italy"] 0 0
    [(10, [⟨jstr "Ireland", jstr "Italy", jstr "10", jstr "0", jstr "Postponed"⟩])]
    (100, Patch.mk .NS none (some none) (some none)) (by decide)

/-- Claim C2: a stored match whose status is FULL_TIME is excluded by the
candidate query of every competition of the run and therefore never
receives a patch — its status is never moved back to LIVE or NS by the
pipeline. -/
theorem C2_ft_never_patched (liveOnly : Bool) (db : List DbMatch)
    (teamsMap : List (Str × Nat)) (names : List Str) (nowDay nowMs : Int)
    (comps : List (Nat × List ScrapedRow)) (hids : (db.map DbMatch.id).Nodup)
    (m : DbMatch) (hm : m ∈ db) (hft : m.status = .FT) :
    m.id ∉ (mainModel liveOnly db teamsMap names nowDay nowMs comps).patches.map Prod.fst := by
  intro hmem
  rcases List.mem_map.mp hmem with ⟨p, hp, hpid⟩
  rcases mainModel_patches_mem liveOnly db teamsMap names nowDay nowMs comps p hp
    with ⟨c, _, hpc⟩
  rcases runCompetition_provenance teamsMap names liveOnly nowDay nowMs c.1 db c.2 p hpc
    with ⟨t, htc, htid, _⟩
  have hdbm := (getCandidates_mem liveOnly nowDay c.1 db t).mp htc
  have hteq : t = m := by
    apply List.inj_on_of_nodup_map hids hdbm.1 hm
    rw [← htid, hpid]
  exact hdbm.2.2.2.2.1 (hteq ▸ hft)

/-- Witness for C2: in a run over a database holding a LIVE match (id
100) and an FT match (id 102) of the same pair, the FT id receives no
patch. -/
theorem C2_witness :
    (102 : Nat) ∉
      (mainModel false
        [⟨100, 10, 0, 5, 7, .LIVE, some 30, some 10, some 3⟩,
         ⟨102, 10, 1, 5, 7, .FT, none, some 20, some 12⟩]
        [(jstr "ireland", 5), (jstr "italy", 7)] [jstr "ireland", jstr "italy"] 0 0
        [(10, [⟨jstr "Ireland", jstr "Italy", jstr "24", jstr "10", jstr "FT"⟩])]).patches.map
        Prod.fst :=
  C2_ft_never_patched false
    [⟨100, 10, 0, 5, 7, .LIVE, some 30, some 10, some 3⟩,
     ⟨102, 10, 1, 5, 7, .FT, none, some 20, some 12⟩]
    [(jstr "ireland", 5), (jstr "italy", 7)] [jstr "ireland", jstr "italy"] 0 0
    [(10, [⟨jstr "Ireland", jstr "Italy", jstr "24", jstr "10", jstr "FT"⟩])]
    (by decide) ⟨102, 10, 1, 5, 7, .FT, none, some 20, some 12⟩ (by decide) (by decide)

/-- Claim C3: within one run (distinct stored match ids, each configured
competition resolving to a distinct season) at most one patch is applied
per stored match id — a second scraped row resolving to an id already in
the updated-ids set is skipped. -/
theorem C3_at_most_one_patch_per_id (liveOnly : Bool) (db : List DbMatch)
    (teamsMap : List (Str × Nat)) (names : List Str) (nowDay nowMs : Int)
    (comps : List (Nat × List ScrapedRow)) (hids : (db.map DbMatch.id).Nodup)
    (hcomps : (comps.map Prod.fst).Nodup) :
    ((mainModel liveOnly db teamsMap names nowDay nowMs comps).patches.map Prod.fst).Nodup := by
  unfold mainModel
  by_cases hearly : (liveOnly && (db.filter fun m => m.status == .LIVE).isEmpty) = true
  · rw [if_pos hearly]; simp
  · rw [if_neg hearly]
    exact mainfold_nodup_aux teamsMap names liveOnly nowDay nowMs db hids comps [] []
      (by simp) (by simp) (by simp) hcomps

/-- Witness for C3: a run whose scrape repeats the same fixture row in
two spellings applies a single patch. -/
theorem C3_witness :
    ((mainModel false
      [⟨100, 10, 0, 5, 7, .LIVE, some 30, some 10, some 3⟩]
      [(jstr "ireland", 5), (jstr "italy", 7)] [jstr "ireland", jstr "italy"] 0 0
      [(10, [⟨jstr "Ireland", jstr "Italy", jstr "24", jstr "10", jstr "FT"⟩,
             ⟨jstr "IRELAND", jstr "ITALY", jstr "24", jstr "10", jstr "FT"⟩])]).patches.map
      Prod.fst).Nodup :=
  C3_at_most_one_patch_per_id false
    [⟨100, 10, 0, 5, 7, .LIVE, some 30, some 10, some 3⟩]
    [(jstr "ireland", 5), (jstr "italy", 7)] [jstr "ireland", jstr "italy"] 0 0
    [(10, [⟨jstr "Ireland", jstr "Italy", jstr "24", jstr "10", jstr "FT"⟩,
           ⟨jstr "IRELAND", jstr "ITALY", jstr "24", jstr "10", jstr "FT"⟩])]
    (by decide) (by decide)

/-- Claim C10: with `LIVE_ONLY=1` the candidate filter admits only LIVE
matches, so every patched id belongs to a match stored as LIVE; and a
database with no LIVE match at all makes the run return before the
browser is launched, with no update applied. -/
theorem C10_live_only (db : List DbMatch) (teamsMap : List (Str × Nat)) (names : List Str)
    (nowDay nowMs : Int) (comps : List (Nat × List ScrapedRow)) :
    ((db.filter fun m => m.status == .LIVE).isEmpty = true →
      mainModel true db teamsMap names nowDay nowMs comps = ⟨false, []⟩) ∧
    (∀ p ∈ (mainModel true db teamsMap names nowDay nowMs comps).patches,
      ∃ t, t ∈ db ∧ t.id = p.1 ∧ t.status = .LIVE) := by
  constructor
  · intro hempty
    unfold mainModel
    rw [if_pos (by simp [hempty])]
  · intro p hp
    rcases mainModel_patches_mem true db teamsMap names nowDay nowMs comps p hp
      with ⟨c, _, hpc⟩
    rcases runCompetition_provenance teamsMap names true nowDay nowMs c.1 db c.2 p hpc
      with ⟨t, htc, htid, _⟩
    have hdbm := (getCandidates_mem true nowDay c.1 db t).mp htc
    exact ⟨t, hdbm.1, htid.symm, hdbm.2.2.2.2.2 rfl⟩

/-- Witness for C10: the early return on a LIVE-free database, and the
LIVE provenance of the single patch of a turbo run. -/
theorem C10_witness :
    mainModel true [⟨102, 10, 1, 5, 7, .FT, none, some 20, some 12⟩]
      [(jstr "ireland", 5), (jstr "italy", 7)] [jstr "ireland", jstr "italy"] 0 0
      [(10, [⟨jstr "Ireland", jstr "Italy", jstr "24", jstr "10", jstr "FT"⟩])] =
      ⟨false, []⟩ ∧
    (∃ t, t ∈ ([⟨100, 10, 0, 5, 7, .LIVE, some 30, some 10, some 3⟩] : List DbMatch) ∧
      t.id = (100,
        Patch.mk .FT none (some (some 24)) (some (some 10))).1 ∧ t.status = .LIVE) :=
  ⟨(C10_live_only [⟨102, 10, 1, 5, 7, .FT, none, some 20, some 12⟩]
      [(jstr "ireland", 5), (jstr "italy", 7)] [jstr "ireland", jstr "italy"] 0 0
      [(10, [⟨jstr "Ireland", jstr "Italy", jstr "24", jstr "10", jstr "FT"⟩])]).1 (by decide),
   (C10_live_only [⟨100, 10, 0, 5, 7, .LIVE, some 30, some 10, some 3⟩]
      [(jstr "ireland", 5), (jstr "italy", 7)] [jstr "ireland", jstr "italy"] 0 0
      [(10, [⟨jstr "Ireland", jstr "Italy", jstr "24", jstr "10", jstr "FT"⟩])]).2
      (100, Patch.mk .FT none (some (some 24)) (some (some 10))) (by decide)⟩

/-! ## Claim C6 -/

theorem lookupA_mem {α β : Type} [DecidableEq α] (a : α) (l : List (α × β)) (b : β)
    (h : lookupA a l = some b) : (a, b) ∈ l := by
  induction l with
  | nil => cases h
  | cons kv rest ih =>
    rcases kv with ⟨k, v⟩
    simp only [lookupA] at h
    by_cases he : a = k
    · rw [if_pos he] at h
      obtain rfl : v = b := by simpa using h
      subst he
      exact List.mem_cons_self _ _
    · rw [if_neg he] at h
      exact List.mem_cons_of_mem _ (ih h)

theorem fuzzyFold_aux (n : Str) (tokens : List Str) :
    ∀ (names : List Str) (st : Option Str × Nat),
      (∀ x ∈ names, scoreOf n tokens x ≤ (names.foldl
        (fun st cand =>
          let sc := scoreOf n tokens cand
          if st.2 < sc then (some cand, sc) else st) st).2) ∧
      st.2 ≤ (names.foldl
        (fun st cand =>
          let sc := scoreOf n tokens cand
          if st.2 < sc then (some cand, sc) else st) st).2 ∧
      ((names.foldl
          (fun st cand =>
            let sc := scoreOf n tokens cand
            if st.2 < sc then (some cand, sc) else st) st) = st ∨
        ∃ bn ∈ names, (names.foldl
          (fun st cand =>
            let sc := scoreOf n tokens cand
            if st.2 < sc then (some cand, sc) else st) st).1 = some bn ∧
          scoreOf n tokens bn = (names.foldl
            (fun st cand =>
              let sc := scoreOf n tokens cand
              if st.2 < sc then (some cand, sc) else st) st).2) := by
  intro names
  induction names with
  | nil =>
    intro st
    exact ⟨by simp, Nat.le_refl _, Or.inl rfl⟩
  | cons c cs ih =>
    intro st
    simp only [List.foldl_cons]
    by_cases hlt : st.2 < scoreOf n tokens c
    · rw [if_pos hlt]
      rcases ih (some c, scoreOf n tokens c) with ⟨h1, h2, h3⟩
      refine ⟨?_, ?_, ?_⟩
      · intro x hx
        rcases List.mem_cons.mp hx with hx | hx
        · rw [hx]; exact h2
        · exact h1 x hx
      · exact Nat.le_trans (Nat.le_of_lt hlt) h2
      · rcases h3 with h3 | ⟨bn, hbn1, hbn2, hbn3⟩
        · rw [h3]
          exact Or.inr ⟨c, List.mem_cons_self _ _, rfl, rfl⟩
        · exact Or.inr ⟨bn, List.mem_cons_of_mem _ hbn1, hbn2, hbn3⟩
    · rw [if_neg hlt]
      rcases ih st with ⟨h1, h2, h3⟩
      refine ⟨?_, h2, ?_⟩
      · intro x hx
        rcases List.mem_cons.mp hx with hx | hx
        · rw [hx]
          exact Nat.le_trans (Nat.le_of_not_lt hlt) h2
        · exact h1 x hx
      · rcases h3 with h3 | ⟨bn, hbn1, hbn2, hbn3⟩
        · exact Or.inl h3
        · exact Or.inr ⟨bn, List.mem_cons_of_mem _ hbn1, hbn2, hbn3⟩

/-- Claim C6: `resolveTeamId` returns a direct map hit on the normalized
raw name without running fuzzy matching; otherwise the returned id (if
any) is that of a highest-scoring canonical name with score at least 2,
and a best score below 2 — or an empty normalized name — yields null.
Team ids are assumed nonzero (Supabase serials), matching the JavaScript
truthiness check on the direct hit. -/
theorem C6_resolve_spec (raw : Str) (teamsMap : List (Str × Nat)) (names : List Str)
    (hval : ∀ q ∈ teamsMap, q.2 ≠ 0) :
    ((norm raw).isEmpty = false → ∀ id, lookupA (norm raw) teamsMap = some id →
      resolveTeamId raw teamsMap names = some id) ∧
    ((norm raw).isEmpty = true → resolveTeamId raw teamsMap names = none) ∧
    (lookupA (norm raw) teamsMap = none →
      (∀ nm ∈ names, scoreOf (norm raw) (tokensOf (norm raw)) nm < 2) →
      resolveTeamId raw teamsMap names = none) ∧
    (lookupA (norm raw) teamsMap = none →
      ∀ id, resolveTeamId raw teamsMap names = some id →
        ∃ bn ∈ names, lookupA bn teamsMap = some id ∧
          2 ≤ scoreOf (norm raw) (tokensOf (norm raw)) bn ∧
          ∀ other ∈ names, scoreOf (norm raw) (tokensOf (norm raw)) other ≤
            scoreOf (norm raw) (tokensOf (norm raw)) bn) := by
  refine ⟨?_, ?_, ?_, ?_⟩
  · intro hne id hid
    have hid0 : id ≠ 0 := hval (norm raw, id) (lookupA_mem _ _ _ hid)
    simp only [resolveTeamId, hne, Bool.false_eq_true, if_false, hid]
    rw [if_neg hid0]
  · intro hne
    simp only [resolveTeamId, hne, if_true]
  · intro hlook hsmall
    by_cases hne : (norm raw).isEmpty
    · simp only [resolveTeamId, hne, if_true]
    · simp only [resolveTeamId, hne, Bool.false_eq_true, if_false, hlook]
      rcases hf : fuzzyFold (norm raw) (tokensOf (norm raw)) names with ⟨ob, bs⟩
      cases ob with
      | none => simp [fuzzyResolve, hf]
      | some bn =>
        rcases (fuzzyFold_aux (norm raw) (tokensOf (norm raw)) names (none, 0)).2.2 with
          h3 | ⟨bn2, hbn1, hbn2, hbn3⟩
        · rw [show fuzzyFold (norm raw) (tokensOf (norm raw)) names =
            names.foldl (fun st cand =>
              let sc := scoreOf (norm raw) (tokensOf (norm raw)) cand
              if st.2 < sc then (some cand, sc) else st) (none, 0) from rfl, h3] at hf
          cases hf
        · have hfold := hf
          rw [show fuzzyFold (norm raw) (tokensOf (norm raw)) names =
            names.foldl (fun st cand =>
              let sc := scoreOf (norm raw) (tokensOf (norm raw)) cand
              if st.2 < sc then (some cand, sc) else st) (none, 0) from rfl] at hfold
          rw [hfold] at hbn2 hbn3
          simp only at hbn2 hbn3
          obtain rfl : bn = bn2 := by simpa using hbn2
          have hlt : bs < 2 := by
            rw [← hbn3]
            exact hsmall bn hbn1
          simp only [fuzzyResolve, hf]
          rw [if_pos (by simp [hlt])]
  · intro hlook id hres
    by_cases hne : (norm raw).isEmpty
    · rw [(by simp only [resolveTeamId, hne, if_true] : resolveTeamId raw teamsMap names =
        none)] at hres
      cases hres
    · simp only [resolveTeamId, hne, Bool.false_eq_true, if_false, hlook] at hres
      rcases hf : fuzzyFold (norm raw) (tokensOf (norm raw)) names with ⟨ob, bs⟩
      cases ob with
      | none =>
        rw [fuzzyResolve, hf] at hres
        dsimp only at hres
        cases hres
      | some bn =>
        rw [fuzzyResolve, hf] at hres
        dsimp only at hres
        by_cases hcond : (bn.isEmpty || decide (bs < 2)) = true
        · rw [if_pos hcond] at hres; cases hres
        · rw [if_neg hcond] at hres
          have hbs2 : 2 ≤ bs := by
            rcases Bool.or_eq_false_iff.mp (Bool.not_eq_true _ ▸ hcond) with ⟨_, hb⟩
            simpa using hb
          rcases (fuzzyFold_aux (norm raw) (tokensOf (norm raw)) names (none, 0)).2.2 with
            h3 | ⟨bn2, hbn1, hbn2, hbn3⟩
          · rw [show fuzzyFold (norm raw) (tokensOf (norm raw)) names =
              names.foldl (fun st cand =>
                let sc := scoreOf (norm raw) (tokensOf (norm raw)) cand
                if st.2 < sc then (some cand, sc) else st) (none, 0) from rfl, h3] at hf
            cases hf
          · have hfold := hf
            rw [show fuzzyFold (norm raw) (tokensOf (norm raw)) names =
              names.foldl (fun st cand =>
                let sc := scoreOf (norm raw) (tokensOf (norm raw)) cand
                if st.2 < sc then (some cand, sc) else st) (none, 0) from rfl] at hfold
            rw [hfold] at hbn2 hbn3
            simp only at hbn2 hbn3
            obtain rfl : bn = bn2 := by simpa using hbn2
            refine ⟨bn, hbn1, hres, hbn3 ▸ hbs2, ?_⟩
            intro other hother
            have hmax := (fuzzyFold_aux (norm raw) (tokensOf (norm raw)) names (none, 0)).1
              other hother
            rw [hfold] at hmax
            simp only at hmax
            rw [hbn3]
            exact hmax

/-- Witness for C6: the alias key "ireland" resolves directly. -/
theorem C6_witness :
    resolveTeamId (jstr "Ireland") [(jstr "ireland", 5), (jstr "italy", 7)]
      [jstr "ireland", jstr "italy"] = some 5 :=
  (C6_resolve_spec (jstr "Ireland") [(jstr "ireland", 5), (jstr "italy", 7)]
    [jstr "ireland", jstr "italy"] (by decide)).1 (by decide) 5 (by decide)

/-! ## Claim C9 -/

/-- Claim C9: compute mode awards 4/0 on a decisive FULL_TIME result and
2/2 on a draw, accumulates played/won/drawn/lost/points-for/against per
team, and sorts by points desc, point-difference desc, points-for desc,
then name; on Scenario E (A beats B 20-10, B draws C 15-15, A beats C
30-5) Team A finishes played 2, won 2, 8 points, and the B/C tie at 2
points is resolved by point-difference (B -10 ahead of C -25). -/
theorem C9_standings_compute :
    (∀ h a : Int,
      (a < h → pointsForResult h a = ⟨4, 0, 1, 0, 0⟩) ∧
      (h < a → pointsForResult h a = ⟨0, 4, 0, 1, 0⟩) ∧
      (h = a → pointsForResult h a = ⟨2, 2, 0, 0, 1⟩)) ∧
    standingsComputed [(1, jstr "Team A"), (2, jstr "Team B"), (3, jstr "Team C")]
      [⟨.FT, 1, jstr "Team A", 2, jstr "Team B", some 20, some 10⟩,
       ⟨.FT, 2, jstr "Team B", 3, jstr "Team C", some 15, some 15⟩,
       ⟨.FT, 1, jstr "Team A", 3, jstr "Team C", some 30, some 5⟩] none =
      [⟨⟨1, jstr "Team A", 2, 2, 0, 0, 50, 15, 8⟩, 1, none⟩,
       ⟨⟨2, jstr "Team B", 2, 0, 1, 1, 25, 35, 2⟩, 2, none⟩,
       ⟨⟨3, jstr "Team C", 2, 0, 1, 1, 20, 45, 2⟩, 3, none⟩] := by
  constructor
  · intro h a
    refine ⟨?_, ?_, ?_⟩
    · intro hlt
      unfold pointsForResult
      rw [if_pos hlt]
    · intro hlt
      unfold pointsForResult
      rw [if_neg (by omega), if_pos hlt]
    · intro he
      unfold pointsForResult
      rw [if_neg (by omega), if_neg (by omega)]
  · decide

/-- Witness for C9 at the decisive result 20-10 and the draw 15-15. -/
theorem C9_witness :
    ((10 : Int) < 20 ∧ pointsForResult 20 10 = ⟨4, 0, 1, 0, 0⟩) ∧
    ((15 : Int) = 15 ∧ pointsForResult 15 15 = ⟨2, 2, 0, 0, 1⟩) :=
  ⟨⟨by decide, (C9_standings_compute.1 20 10).1 (by decide)⟩,
   ⟨rfl, (C9_standings_compute.1 15 15).2.2 rfl⟩⟩

/-! ## Claim C5 -/

theorem stableChar_spec (c : Char) (h : stableChar c = true) :
    jsToLower c = c ∧ nfkd c = [c] ∧ isMark c = false ∧ c ≠ rsquo := by
  simp only [stableChar, Bool.and_eq_true, beq_iff_eq, Bool.not_eq_true', bne_iff_ne,
    ne_eq] at h
  exact ⟨h.1.1.1, h.1.1.2, h.1.2, h.2⟩

set_option maxHeartbeats 2000000 in
/-- Every character produced by lower-casing then NFKD, once the combining
marks are stripped and the quote replaced, is fixed by all four
character-level stages. -/
theorem normChar_stable (c e : Char) (he : e ∈ nfkd (jsToLower c)) (hm : isMark e = false) :
    stableChar (quoteRepl e) = true := by
  cases h1 : lookupA c lowerTable with
  | some v =>
    have hv : jsToLower c = v := by simp [jsToLower, h1]
    rw [hv] at he
    have hmem := lookupA_mem c lowerTable v h1
    have hall : lowerTable.all
        (fun p => (nfkd p.2).all fun e => isMark e || stableChar (quoteRepl e)) = true := by
      decide
    have h2 := List.all_eq_true.mp hall (c, v) hmem
    simp only at h2
    have h3 := List.all_eq_true.mp h2 e he
    rcases Bool.or_eq_true_iff.mp h3 with h4 | h4
    · rw [h4] at hm; cases hm
    · exact h4
  | none =>
    have hv : jsToLower c = c := by simp [jsToLower, h1]
    rw [hv] at he
    cases h2 : lookupA c nfkdTable with
    | some ds =>
      have hd : nfkd c = ds := by simp [nfkd, h2]
      rw [hd] at he
      have hmem := lookupA_mem c nfkdTable ds h2
      have hall : nfkdTable.all
          (fun p => p.2.all fun e => isMark e || stableChar (quoteRepl e)) = true := by
        decide
      have h3 := List.all_eq_true.mp hall (c, ds) hmem
      simp only at h3
      have h4 := List.all_eq_true.mp h3 e he
      rcases Bool.or_eq_true_iff.mp h4 with h5 | h5
      · rw [h5] at hm; cases hm
      · exact h5
    | none =>
      have hd : nfkd c = [c] := by simp [nfkd, h2]
      rw [hd] at he
      obtain rfl : e = c := by simpa using he
      by_cases hc : e = rsquo
      · subst hc; decide
      · have hq : quoteRepl e = e := by simp [quoteRepl, hc]
        rw [hq]
        simp only [stableChar, Bool.and_eq_true, beq_iff_eq, Bool.not_eq_true', bne_iff_ne,
          ne_eq]
        exact ⟨⟨⟨by simp [jsToLower, h1], by simp [nfkd, h2]⟩, hm⟩, hc⟩

/-- Every character of `normCore s` is stable. -/
theorem normCore_stable (s : Str) : ∀ d ∈ normCore s, stableChar d = true := by
  intro d hd
  simp only [normCore, List.mem_map, List.mem_filter, List.mem_flatMap] at hd
  rcases hd with ⟨e, ⟨⟨c2, hc2, he⟩, hmark⟩, rfl⟩
  rcases hc2 with ⟨c, _, rfl⟩
  exact normChar_stable c e he (by simpa using hmark)

/-- `normCore` fixes a string of stable characters. -/
theorem normCore_fixed (t : Str) (h : ∀ d ∈ t, stableChar d = true) : normCore t = t := by
  induction t with
  | nil => rfl
  | cons d rest ih =>
    have hd := stableChar_spec d (h d (List.mem_cons_self _ _))
    have hrest := ih fun x hx => h x (List.mem_cons_of_mem _ hx)
    show (((List.map jsToLower (d :: rest)).flatMap nfkd).filter
      (fun c => !(isMark c))).map quoteRepl = d :: rest
    rw [List.map_cons, hd.1, List.flatMap_cons, hd.2.1, List.singleton_append,
      List.filter_cons_of_pos (by simp [hd.2.2.1]), List.map_cons,
      show quoteRepl d = d from by simp [quoteRepl, hd.2.2.2]]
    exact congrArg (List.cons d) hrest

/-- Characters of the collapse output come from the input or are the
space it inserts. -/
theorem collapseWsAux_mem : ∀ (b : Bool) (u : Str) (d : Char),
    d ∈ collapseWsAux b u → d = ' ' ∨ d ∈ u := by
  intro b u
  induction u generalizing b with
  | nil => intro d hd; simp [collapseWsAux] at hd
  | cons c rest ih =>
    intro d hd
    simp only [collapseWsAux] at hd
    by_cases hws : isWsJs c
    · rw [if_pos hws] at hd
      cases b with
      | true =>
        rcases ih true d hd with h | h
        · exact Or.inl h
        · exact Or.inr (List.mem_cons_of_mem _ h)
      | false =>
        rcases List.mem_cons.mp hd with h | h
        · exact Or.inl h
        · rcases ih true d h with h2 | h2
          · exact Or.inl h2
          · exact Or.inr (List.mem_cons_of_mem _ h2)
    · rw [if_neg hws] at hd
      rcases List.mem_cons.mp hd with h | h
      · exact Or.inr (h ▸ List.mem_cons_self _ _)
      · rcases ih false d h with h2 | h2
        · exact Or.inl h2
        · exact Or.inr (List.mem_cons_of_mem _ h2)

/-- Every whitespace character of the collapse output is the plain
space. -/
theorem collapseWsAux_ws_space : ∀ (b : Bool) (u : Str) (d : Char),
    d ∈ collapseWsAux b u → isWsJs d = true → d = ' ' := by
  intro b u
  induction u generalizing b with
  | nil => intro d hd; simp [collapseWsAux] at hd
  | cons c rest ih =>
    intro d hd hw
    simp only [collapseWsAux] at hd
    by_cases hws : isWsJs c
    · rw [if_pos hws] at hd
      cases b with
      | true => exact ih true d hd hw
      | false =>
        rcases List.mem_cons.mp hd with h | h
        · exact h
        · exact ih true d h hw
    · rw [if_neg hws] at hd
      rcases List.mem_cons.mp hd with h | h
      · rw [h] at hw; rw [hw] at hws; cases hws rfl
      · exact ih false d h hw

/-- After a whitespace run was just collapsed, the output starts with a
non-whitespace character. -/
theorem collapseWsAux_head_true : ∀ (u : Str) (d : Char),
    (collapseWsAux true u).head? = some d → isWsJs d = false := by
  intro u
  induction u with
  | nil => intro d hd; cases hd
  | cons c rest ih =>
    intro d hd
    simp only [collapseWsAux] at hd
    by_cases hws : isWsJs c
    · rw [if_pos hws] at hd
      exact ih d hd
    · rw [if_neg hws] at hd
      obtain rfl : c = d := by simpa using hd
      simpa using hws

/-- The collapse output never holds two adjacent whitespace characters. -/
theorem collapseWsAux_chain : ∀ (b : Bool) (u : Str),
    List.Chain' noWsPair (collapseWsAux b u) := by
  intro b u
  induction u generalizing b with
  | nil => simp [collapseWsAux]
  | cons c rest ih =>
    simp only [collapseWsAux]
    by_cases hws : isWsJs c
    · rw [if_pos hws]
      cases b with
      | true =>
        rw [if_pos rfl]
        exact ih true
      | false =>
        rw [if_neg (by simp)]
        rw [List.chain'_cons']
        refine ⟨?_, ih true⟩
        intro y hy
        intro hcon
        rw [collapseWsAux_head_true rest y hy] at hcon
        cases hcon.2
    · rw [if_neg hws]
      rw [List.chain'_cons']
      refine ⟨?_, ih false⟩
      intro y _
      intro hcon
      exact hws hcon.1

/-- Collapsing fixes a string whose whitespace is single plain spaces
(and, after a run, one that starts with a non-space). -/
theorem collapseWsAux_fixed : ∀ l : Str,
    (∀ d ∈ l, isWsJs d = true → d = ' ') →
    List.Chain' noWsPair l →
    collapseWsAux false l = l ∧
      ((∀ d, l.head? = some d → isWsJs d = false) → collapseWsAux true l = l) := by
  intro l
  induction l with
  | nil => intro _ _; exact ⟨rfl, fun _ => rfl⟩
  | cons c rest ih =>
    intro h1 h2
    have hrest1 : ∀ d ∈ rest, isWsJs d = true → d = ' ' :=
      fun d hd => h1 d (List.mem_cons_of_mem _ hd)
    have hrest2 : List.Chain' noWsPair rest := h2.tail
    rcases ih hrest1 hrest2 with ⟨ihf, iht⟩
    constructor
    · by_cases hws : isWsJs c
      · have hc : c = ' ' := h1 c (List.mem_cons_self _ _) hws
        simp only [collapseWsAux, if_pos hws]
        rw [hc]
        refine congrArg (List.cons ' ') ?_
        apply iht
        intro d hd
        have hr := (List.chain'_cons'.mp h2).1 d hd
        by_cases hd2 : isWsJs d = true
        · exact absurd ⟨hws, hd2⟩ hr
        · simpa using hd2
      · simp only [collapseWsAux, if_neg hws]
        exact congrArg (List.cons c) ihf
    · intro hhead
      have hws : isWsJs c = false := hhead c rfl
      simp only [collapseWsAux, hws, Bool.false_eq_true, if_false]
      exact congrArg (List.cons c) ihf

theorem head_dropWhile_not (p : Char → Bool) : ∀ (l : Str) (d : Char),
    (l.dropWhile p).head? = some d → p d = false := by
  intro l
  induction l with
  | nil => intro d hd; cases hd
  | cons c rest ih =>
    intro d hd
    rw [List.dropWhile_cons] at hd
    by_cases hc : p c = true
    · rw [if_pos hc] at hd
      exact ih d hd
    · rw [if_neg hc] at hd
      obtain rfl : c = d := by simpa using hd
      simpa using hc

theorem dropWhile_eq_self_of_head (p : Char → Bool) (l : Str)
    (h : ∀ d, l.head? = some d → p d = false) : l.dropWhile p = l := by
  cases l with
  | nil => rfl
  | cons c rest =>
    rw [List.dropWhile_cons, if_neg (by simp [h c rfl])]

theorem trimJs_mem (l : Str) (d : Char) (hd : d ∈ trimJs l) : d ∈ l := by
  unfold trimJs at hd
  rw [List.mem_reverse] at hd
  have h2 := (List.dropWhile_suffix isWsJs).mem hd
  rw [List.mem_reverse] at h2
  exact (List.dropWhile_suffix isWsJs).mem h2

theorem chain_noWsPair_reverse (l : Str) (h : List.Chain' noWsPair l) :
    List.Chain' noWsPair l.reverse := by
  rw [List.chain'_reverse]
  exact h.imp fun a b hab hcon => hab ⟨hcon.2, hcon.1⟩

theorem trimJs_chain (l : Str) (h : List.Chain' noWsPair l) :
    List.Chain' noWsPair (trimJs l) := by
  unfold trimJs
  apply chain_noWsPair_reverse
  exact ((chain_noWsPair_reverse _ (h.suffix (List.dropWhile_suffix isWsJs))).suffix
    (List.dropWhile_suffix isWsJs))

theorem trimJs_head (l : Str) : ∀ d, (trimJs l).head? = some d → isWsJs d = false := by
  intro d hd
  unfold trimJs at hd
  rcases (List.dropWhile_suffix isWsJs
      (l := (l.dropWhile isWsJs).reverse)) with ⟨pre, hpre⟩
  rcases hz : ((l.dropWhile isWsJs).reverse.dropWhile isWsJs).reverse with _ | ⟨a, tl⟩
  · rw [hz] at hd; cases hd
  · rw [hz] at hd
    obtain rfl : a = d := by simpa using hd
    have hy : l.dropWhile isWsJs =
        ((l.dropWhile isWsJs).reverse.dropWhile isWsJs).reverse ++ pre.reverse := by
      have := congrArg List.reverse hpre
      simpa [List.reverse_append] using this.symm
    rw [hz] at hy
    apply head_dropWhile_not isWsJs l a
    rw [hy]
    rfl

theorem trimJs_last (l : Str) : ∀ d, (trimJs l).reverse.head? = some d → isWsJs d = false := by
  intro d hd
  unfold trimJs at hd
  rw [List.reverse_reverse] at hd
  exact head_dropWhile_not isWsJs _ d hd

theorem trimJs_fixed (w : Str) (hh : ∀ d, w.head? = some d → isWsJs d = false)
    (hl : ∀ d, w.reverse.head? = some d → isWsJs d = false) : trimJs w = w := by
  unfold trimJs
  rw [dropWhile_eq_self_of_head _ _ hh, dropWhile_eq_self_of_head _ _ hl,
    List.reverse_reverse]

/-- Idempotence of the normalizer on the model. -/
theorem norm_idem (s : Str) : norm (norm s) = norm s := by
  have hmemcol : ∀ d ∈ norm s, d ∈ collapseWs (normCore s) := by
    intro d hd
    exact trimJs_mem _ d hd
  have hstable : ∀ d ∈ norm s, stableChar d = true := by
    intro d hd
    rcases collapseWsAux_mem false (normCore s) d (hmemcol d hd) with h2 | h2
    · rw [h2]; decide
    · exact normCore_stable s d h2
  have hP1 : ∀ d ∈ norm s, isWsJs d = true → d = ' ' := by
    intro d hd hw
    exact collapseWsAux_ws_space false (normCore s) d (hmemcol d hd) hw
  have hP2 : List.Chain' noWsPair (norm s) :=
    trimJs_chain _ (collapseWsAux_chain false (normCore s))
  have hcore : normCore (norm s) = norm s := normCore_fixed _ hstable
  have hcol : collapseWs (norm s) = norm s := (collapseWsAux_fixed (norm s) hP1 hP2).1
  have htr : trimJs (norm s) = norm s := trimJs_fixed _ (trimJs_head _) (trimJs_last _)
  calc norm (norm s) = trimJs (collapseWs (normCore (norm s))) := rfl
    _ = trimJs (collapseWs (norm s)) := by rw [hcore]
    _ = trimJs (norm s) := by rw [show collapseWs (norm s) = norm s from hcol]
    _ = norm s := htr

/-- Claim C5: `norm` is idempotent, and the diacritic-bearing and plain
spellings of Peñarol normalize to the same key (`penarol`). -/
theorem C5_norm_idempotent_diacritics :
    (∀ s : Str, norm (norm s) = norm s) ∧
    norm (jstr "Peñarol") = norm (jstr "Penarol") ∧
    norm (jstr "Peñarol") = jstr "penarol" :=
  ⟨norm_idem, by decide, by decide⟩

end RugbyNow
